import Mathlib

/-!
Verification of the polar_h10 repository: a shallow embedding of the PMD
parameter codec, sample-frame decoders, timestamp reconstruction and the
notification lifecycle (src/polar_h10/core/utils.py and
src/polar_h10/core/polar_h10.py), together with theorems settling the
spec claims.

Python exceptions are modelled with Except over an explicit error kind;
Python ints are Int (Nat where the source only produces non-negative
values); Python dicts are insertion-ordered association lists.
-/

namespace PolarH10

/-- Kinds of Python exception the embedded code can raise. -/
inductive PyError where
  | valueError
  | zeroDivisionError
  | overflowError
  | indexError
  | keyError
  | typeError
  | unboundLocalError
  | polarH10Error
deriving DecidableEq, Repr

/-- Modelled from the spec: enums.py is absent from src/.  SettingId is the
closed enumeration of §3 (SAMPLE_RATE, RESOLUTION, RANGE, CHANNELS, FACTOR,
RANGE_MILLIUNIT); wire values 0, 1, 2 for SAMPLE_RATE, RESOLUTION and RANGE
are pinned by the serialized vectors in src/tests/test_utils.py, the rest are
assigned the remaining distinct bytes.  Only distinctness of the wire values
matters to the claims; the per-setting byte widths come from src
(get_setting_size in utils.py). -/
inductive PMDSetting where
  | SAMPLE_RATE
  | RESOLUTION
  | RANGE
  | RANGE_MILLIUNIT
  | CHANNELS
  | FACTOR
deriving DecidableEq, Repr

/-- The one-byte wire value of a setting (PMDSetting[...].value). -/
def PMDSetting.value : PMDSetting → Nat
  | .SAMPLE_RATE => 0
  | .RESOLUTION => 1
  | .RANGE => 2
  | .RANGE_MILLIUNIT => 3
  | .CHANNELS => 4
  | .FACTOR => 5

/-- PMDSetting(byte): the enum constructor lookup; none models the ValueError
raised by Python for an undefined wire value. -/
def PMDSetting.ofValue (n : Nat) : Option PMDSetting :=
  if n = 0 then some .SAMPLE_RATE
  else if n = 1 then some .RESOLUTION
  else if n = 2 then some .RANGE
  else if n = 3 then some .RANGE_MILLIUNIT
  else if n = 4 then some .CHANNELS
  else if n = 5 then some .FACTOR
  else none

theorem PMDSetting.ofValue_value (s : PMDSetting) : PMDSetting.ofValue s.value = some s := by
  cases s <;> rfl

/-- get_setting_size (src/polar_h10/core/utils.py lines 205-211): byte width
of one value of the given setting. -/
def get_setting_size : PMDSetting → Nat
  | .CHANNELS => 1
  | .FACTOR => 4
  | .RANGE_MILLIUNIT => 8
  | _ => 2

theorem get_setting_size_pos (s : PMDSetting) : 1 ≤ get_setting_size s := by
  cases s <;> decide

/-- A parameter value: Python stores either an int or a list of ints. -/
inductive SettingValue where
  | scalar (v : Nat)
  | listv (vs : List Nat)
deriving DecidableEq, Repr

abbrev ParamEntry := PMDSetting × SettingValue

/-- x.to_bytes(w, "little"): little-endian byte list of fixed width. -/
def toBytesLE : Nat → Nat → List Nat
  | 0, _ => []
  | w + 1, v => v % 256 :: toBytesLE w (v / 256)

/-- int.from_bytes(bs, "little") on a byte list. -/
def fromBytesLE : List Nat → Nat
  | [] => 0
  | b :: bs => b + 256 * fromBytesLE bs

theorem toBytesLE_length (w v : Nat) : (toBytesLE w v).length = w := by
  induction w generalizing v with
  | zero => rfl
  | succ n ih => simp [toBytesLE, ih]

theorem fromBytesLE_toBytesLE (w v : Nat) (h : v < 2 ^ (8 * w)) :
    fromBytesLE (toBytesLE w v) = v := by
  induction w generalizing v with
  | zero =>
    simp [Nat.pow_zero] at h
    simp [toBytesLE, fromBytesLE, h]
  | succ n ih =>
    have hdiv : v / 256 < 2 ^ (8 * n) := by
      have h256 : (256 : Nat) = 2 ^ 8 := by norm_num
      rw [Nat.div_lt_iff_lt_mul (by norm_num : 0 < 256)]
      calc v < 2 ^ (8 * (n + 1)) := h
        _ = 2 ^ (8 * n) * 256 := by rw [h256, ← pow_add]; ring_nf
    simp only [toBytesLE, fromBytesLE, ih (v / 256) hdiv]
    omega

/-- Python dict assignment d[k] = v on an insertion-ordered association list:
replace in place when the key is present, append otherwise. -/
def dictInsert (l : List ParamEntry) (k : PMDSetting) (v : SettingValue) : List ParamEntry :=
  match l with
  | [] => [(k, v)]
  | (k0, v0) :: t => if k0 = k then (k0, v) :: t else (k0, v0) :: dictInsert t k v

theorem dictInsert_of_not_mem (l : List ParamEntry) (k : PMDSetting) (v : SettingValue)
    (h : k ∉ l.map Prod.fst) : dictInsert l k v = l ++ [(k, v)] := by
  induction l with
  | nil => rfl
  | cons e t ih =>
    obtain ⟨k0, v0⟩ := e
    simp only [List.map_cons, List.mem_cons] at h
    push_neg at h
    simp only [dictInsert]
    rw [if_neg (fun hk => h.1 hk.symm), ih h.2]
    rfl

/-- The width serialize_pmd_parameters actually uses for every value: at
utils.py lines 35 and 38 it calls get_setting_size(setting) where setting is
the dict's NAME STRING (the parameter dict is keyed by name, see the
PMDSetting[setting] lookup on line 31), while get_setting_size's table is
keyed by PMDSetting enum members — a str never equals an enum member, so
dict.get falls through to the default 2 for every setting.  The deserializer,
by contrast, passes the enum member and really gets 1/4/8/2. -/
def serialize_setting_size (_ : PMDSetting) : Nat := 2

/-- serialize_pmd_parameters (src/polar_h10/core/utils.py lines 18-40).
Every value is written at serialize_setting_size (= 2 bytes, the string-key
slip described there); to_bytes raises OverflowError when the value does not
fit that width or the list length does not fit the one count byte. -/
def serialize_pmd_parameters : List ParamEntry → Except PyError (List Nat)
  | [] => .ok []
  | (s, .scalar v) :: rest =>
    if v < 2 ^ (8 * serialize_setting_size s) then
      match serialize_pmd_parameters rest with
      | .error e => .error e
      | .ok bs => .ok (s.value :: 1 :: (toBytesLE (serialize_setting_size s) v ++ bs))
    else .error .overflowError
  | (s, .listv vs) :: rest =>
    if vs.length ≤ 255 ∧ ∀ v ∈ vs, v < 2 ^ (8 * serialize_setting_size s) then
      match serialize_pmd_parameters rest with
      | .error e => .error e
      | .ok bs =>
        .ok (s.value :: vs.length :: (vs.flatMap (toBytesLE (serialize_setting_size s)) ++ bs))
    else .error .overflowError

/-- The inner loop of deserialize_pmd_parameters for a count != 1 entry
(src/polar_h10/core/utils.py lines 67-72): read up to count values of the
given width, stopping (break) when fewer than one width of bytes remains;
returns the values read and the unconsumed bytes. -/
def readValues (w : Nat) : Nat → List Nat → List Nat × List Nat
  | 0, bs => ([], bs)
  | c + 1, bs =>
    if bs.length < w then ([], bs)
    else
      let pr := readValues w c (bs.drop w)
      (fromBytesLE (bs.take w) :: pr.1, pr.2)

theorem readValues_snd_length (w c : Nat) (bs : List Nat) :
    (readValues w c bs).2.length ≤ bs.length := by
  induction c generalizing bs with
  | zero => simp [readValues]
  | succ n ih =>
    simp only [readValues]
    split
    · simp
    · exact le_trans (ih (bs.drop w)) (by simp)

/-- The while loop of deserialize_pmd_parameters (src/polar_h10/core/utils.py
lines 54-75).  The loop runs while more than two bytes remain; an undefined
setting byte raises ValueError; a count of 1 decodes the next (possibly
truncated) slice as a scalar; any other count decodes values via readValues. -/
def deserialize_go : List Nat → List ParamEntry → Except PyError (List ParamEntry)
  | id0 :: cnt :: b :: tl, acc =>
    match PMDSetting.ofValue id0 with
    | none => .error .valueError
    | some s =>
      let w := get_setting_size s
      if cnt = 1 then
        deserialize_go ((b :: tl).drop w)
          (dictInsert acc s (.scalar (fromBytesLE ((b :: tl).take w))))
      else
        deserialize_go (readValues w cnt (b :: tl)).2
          (dictInsert acc s (.listv (readValues w cnt (b :: tl)).1))
  | _, acc => .ok acc
termination_by bs _ => bs.length
decreasing_by
  · simp only [List.length_drop, List.length_cons]
    omega
  · have h := readValues_snd_length (get_setting_size s) cnt (b :: tl)
    simp only [List.length_cons] at h ⊢
    omega

/-- deserialize_pmd_parameters (src/polar_h10/core/utils.py lines 43-75). -/
def deserialize_pmd_parameters (data : List Nat) : Except PyError (List ParamEntry) :=
  deserialize_go data []

/-- A capability-valid entry whose round trip is exact: scalar fitting the
width, or a list of 2 to 255 values each fitting the width. -/
def validEntryB : ParamEntry → Bool
  | (s, .scalar v) => decide (v < 2 ^ (8 * get_setting_size s))
  | (s, .listv vs) =>
    decide (2 ≤ vs.length) && decide (vs.length ≤ 255) &&
      vs.all (fun v => decide (v < 2 ^ (8 * get_setting_size s)))

/-- One entry laid out at the DECODER's widths (get_setting_size): the shape
deserialize_go parses back into exactly that entry.  For width-2 settings
this coincides with what the serializer emits; for the others it does not
(see serialize_setting_size). -/
def entryBytes : ParamEntry → List Nat
  | (s, .scalar v) => s.value :: 1 :: toBytesLE (get_setting_size s) v
  | (s, .listv vs) => s.value :: vs.length :: vs.flatMap (toBytesLE (get_setting_size s))

/-- A whole map laid out at the decoder's widths. -/
def paramBytes (m : List ParamEntry) : List Nat := (m.map entryBytes).flatten

/-- One entry as serialize_pmd_parameters actually emits it: every value at
width 2 (the string-key slip, see serialize_setting_size). -/
def serializeEntryBytes : ParamEntry → List Nat
  | (s, .scalar v) => s.value :: 1 :: toBytesLE 2 v
  | (s, .listv vs) => s.value :: vs.length :: vs.flatMap (toBytesLE 2)

/-- A whole map as serialize_pmd_parameters actually emits it. -/
def serializeBytes (m : List ParamEntry) : List Nat := (m.map serializeEntryBytes).flatten

/-- An entry the serializer accepts: scalar below 2^16, or a list of at most
255 values each below 2^16 (the width-2 to_bytes bounds). -/
def validSerEntryB : ParamEntry → Bool
  | (_, .scalar v) => decide (v < 2 ^ 16)
  | (_, .listv vs) => decide (vs.length ≤ 255) && vs.all (fun v => decide (v < 2 ^ 16))

theorem serialize_eq_of_valid (m : List ParamEntry) (h : ∀ e ∈ m, validSerEntryB e = true) :
    serialize_pmd_parameters m = .ok (serializeBytes m) := by
  induction m with
  | nil => rfl
  | cons e rest ih =>
    obtain ⟨s, val⟩ := e
    have he : validSerEntryB (s, val) = true := h _ (List.mem_cons_self _ _)
    have hr : serialize_pmd_parameters rest = .ok (serializeBytes rest) :=
      ih fun e hm => h e (List.mem_cons_of_mem _ hm)
    cases val with
    | scalar v =>
      simp only [validSerEntryB, decide_eq_true_eq] at he
      have he2 : v < 65536 := by omega
      simp [serialize_pmd_parameters, serialize_setting_size, he2, hr, serializeBytes,
        serializeEntryBytes]
    | listv vs =>
      simp only [validSerEntryB, Bool.and_eq_true, decide_eq_true_eq, List.all_eq_true] at he
      have hcond : vs.length ≤ 255 ∧ ∀ v ∈ vs, v < 2 ^ (8 * serialize_setting_size s) :=
        ⟨he.1, fun v hv => by simpa [serialize_setting_size] using he.2 v hv⟩
      simp only [serialize_pmd_parameters]
      rw [if_pos hcond, hr]
      simp [serializeBytes, serializeEntryBytes, serialize_setting_size]

/-- On maps whose settings all have decoder width 2, the serializer's output
coincides with the decoder-width layout. -/
theorem serializeBytes_eq_paramBytes (m : List ParamEntry)
    (hw2 : ∀ e ∈ m, get_setting_size e.1 = 2) : serializeBytes m = paramBytes m := by
  induction m with
  | nil => rfl
  | cons e rest ih =>
    obtain ⟨s, val⟩ := e
    have h2 : get_setting_size s = 2 := hw2 _ (List.mem_cons_self _ _)
    have hr : serializeBytes rest = paramBytes rest :=
      ih fun e hm => hw2 e (List.mem_cons_of_mem _ hm)
    cases val with
    | scalar v =>
      show serializeEntryBytes (s, .scalar v) ++ serializeBytes rest =
        entryBytes (s, .scalar v) ++ paramBytes rest
      rw [hr]
      simp [serializeEntryBytes, entryBytes, h2]
    | listv vs =>
      show serializeEntryBytes (s, .listv vs) ++ serializeBytes rest =
        entryBytes (s, .listv vs) ++ paramBytes rest
      rw [hr]
      simp [serializeEntryBytes, entryBytes, h2]

theorem flatMap_toBytesLE_length (w : Nat) (vs : List Nat) :
    (vs.flatMap (toBytesLE w)).length = vs.length * w := by
  induction vs with
  | nil => simp
  | cons v vt ih => simp [List.flatMap_cons, ih, toBytesLE_length, Nat.succ_mul, Nat.add_comm]

/-- readValues consumes exactly the encoded values when the count equals the
number of encoded values, leaving any remainder untouched. -/
theorem readValues_exact (w : Nat) (vs : List Nat) (rest : List Nat)
    (hfit : ∀ v ∈ vs, v < 2 ^ (8 * w)) :
    readValues w vs.length (vs.flatMap (toBytesLE w) ++ rest) = (vs, rest) := by
  induction vs with
  | nil => simp [readValues]
  | cons v vt ih =>
    have hlen : (toBytesLE w v).length = w := toBytesLE_length w v
    have hnb : ¬ ((toBytesLE w v ++ (vt.flatMap (toBytesLE w) ++ rest)).length < w) := by
      simp [hlen]
    simp only [List.length_cons, List.flatMap_cons, List.append_assoc, readValues, hnb,
      if_false]
    rw [List.take_left' hlen, List.drop_left' hlen,
      fromBytesLE_toBytesLE w v (hfit v (List.mem_cons_self _ _)),
      ih fun x hx => hfit x (List.mem_cons_of_mem _ hx)]

/-- readValues hits the break when the trailing bytes are shorter than one
width: the fully encoded values are returned, the partial tail is left. -/
theorem readValues_trunc (w : Nat) (cnt : Nat) (vs : List Nat) (t : List Nat)
    (hcnt : vs.length < cnt) (ht : t.length < w)
    (hfit : ∀ v ∈ vs, v < 2 ^ (8 * w)) :
    readValues w cnt (vs.flatMap (toBytesLE w) ++ t) = (vs, t) := by
  induction vs generalizing cnt with
  | nil =>
    obtain ⟨c, rfl⟩ : ∃ c, cnt = c + 1 := ⟨cnt - 1, by omega⟩
    simp [readValues, ht]
  | cons v vt ih =>
    obtain ⟨c, rfl⟩ : ∃ c, cnt = c + 1 := ⟨cnt - 1, by omega⟩
    have hlen : (toBytesLE w v).length = w := toBytesLE_length w v
    have hnb : ¬ ((toBytesLE w v ++ (vt.flatMap (toBytesLE w) ++ t)).length < w) := by
      simp [hlen]
    simp only [List.flatMap_cons, List.append_assoc, readValues, hnb, if_false]
    rw [List.take_left' hlen, List.drop_left' hlen,
      fromBytesLE_toBytesLE w v (hfit v (List.mem_cons_self _ _)),
      ih c (by simpa using hcnt) (fun x hx => hfit x (List.mem_cons_of_mem _ hx))]

/-- Main decoding lemma: running the decode loop over the serialization of a
capability-valid map (followed by any suffix) parses exactly the map's
entries, appends them to the accumulator, and continues on the suffix. -/
theorem deserialize_go_paramBytes (m : List ParamEntry) :
    ∀ acc suffix, (∀ e ∈ m, validEntryB e = true) → (m.map Prod.fst).Nodup →
    (∀ k ∈ m.map Prod.fst, k ∉ acc.map Prod.fst) →
    deserialize_go (paramBytes m ++ suffix) acc = deserialize_go suffix (acc ++ m) := by
  induction m with
  | nil => intro acc suffix _ _ _; simp [paramBytes]
  | cons e rest ih =>
    intro acc suffix hval hnd hdisj
    obtain ⟨s, val⟩ := e
    have hw := get_setting_size_pos s
    have he : validEntryB (s, val) = true := hval _ (List.mem_cons_self _ _)
    have hsacc : s ∉ acc.map Prod.fst := hdisj s (by simp)
    have hsrest : s ∉ rest.map Prod.fst := by
      simp only [List.map_cons, List.nodup_cons] at hnd
      exact hnd.1
    have hndr : (rest.map Prod.fst).Nodup := by
      simp only [List.map_cons, List.nodup_cons] at hnd
      exact hnd.2
    have hdisj2 : ∀ k ∈ rest.map Prod.fst, k ∉ (acc ++ [(s, val)]).map Prod.fst := by
      intro k hk hmem
      simp only [List.map_append, List.mem_append, List.map_cons, List.map_nil,
        List.mem_singleton] at hmem
      rcases hmem with hmem | hmem
      · exact hdisj k (by simp [hk]) hmem
      · exact hsrest (hmem ▸ hk)
    have hrest : ∀ e ∈ rest, validEntryB e = true :=
      fun e hm => hval e (List.mem_cons_of_mem _ hm)
    cases val with
    | scalar v =>
      simp only [validEntryB, decide_eq_true_eq] at he
      have hlen : (toBytesLE (get_setting_size s) v).length = get_setting_size s :=
        toBytesLE_length _ v
      obtain ⟨b, bs, hbs⟩ : ∃ b bs, toBytesLE (get_setting_size s) v = b :: bs := by
        cases htb : toBytesLE (get_setting_size s) v with
        | nil => rw [htb] at hlen; simp at hlen; omega
        | cons b bs => exact ⟨b, bs, rfl⟩
      have hshape : paramBytes ((s, .scalar v) :: rest) ++ suffix =
          s.value :: 1 :: (b :: (bs ++ (paramBytes rest ++ suffix))) := by
        simp [paramBytes, entryBytes, hbs]
      rw [hshape]
      simp only [deserialize_go, PMDSetting.ofValue_value]
      rw [if_pos trivial]
      have hcons : b :: (bs ++ (paramBytes rest ++ suffix)) =
          toBytesLE (get_setting_size s) v ++ (paramBytes rest ++ suffix) := by
        simp [hbs]
      rw [hcons, List.take_left' hlen, List.drop_left' hlen,
        fromBytesLE_toBytesLE _ v he, dictInsert_of_not_mem acc s _ hsacc]
      refine (ih (acc ++ [(s, .scalar v)]) suffix hrest hndr hdisj2).trans ?_
      simp
    | listv vs =>
      simp only [validEntryB, Bool.and_eq_true, decide_eq_true_eq, List.all_eq_true] at he
      obtain ⟨⟨h2, h255⟩, hfit0⟩ := he
      have hfit : ∀ v ∈ vs, v < 2 ^ (8 * get_setting_size s) :=
        fun v hv => by simpa using hfit0 v hv
      have hflen : (vs.flatMap (toBytesLE (get_setting_size s))).length =
          vs.length * get_setting_size s := flatMap_toBytesLE_length _ vs
      obtain ⟨b, bs, hbs⟩ : ∃ b bs,
          vs.flatMap (toBytesLE (get_setting_size s)) = b :: bs := by
        cases htb : vs.flatMap (toBytesLE (get_setting_size s)) with
        | nil =>
          exfalso
          rw [htb] at hflen
          have hz : vs.length * get_setting_size s = 0 := hflen.symm
          rcases Nat.mul_eq_zero.mp hz with h | h <;> omega
        | cons b bs => exact ⟨b, bs, rfl⟩
      have hshape : paramBytes ((s, .listv vs) :: rest) ++ suffix =
          s.value :: vs.length :: (b :: (bs ++ (paramBytes rest ++ suffix))) := by
        simp [paramBytes, entryBytes, hbs]
      rw [hshape]
      simp only [deserialize_go, PMDSetting.ofValue_value]
      have hne : ¬ (vs.length = 1) := by omega
      rw [if_neg hne]
      have hcons : b :: (bs ++ (paramBytes rest ++ suffix)) =
          vs.flatMap (toBytesLE (get_setting_size s)) ++ (paramBytes rest ++ suffix) := by
        simp [hbs]
      rw [hcons, readValues_exact (get_setting_size s) vs (paramBytes rest ++ suffix) hfit]
      show deserialize_go (paramBytes rest ++ suffix)
          (dictInsert acc s (.listv vs)) = _
      rw [dictInsert_of_not_mem acc s _ hsacc]
      refine (ih (acc ++ [(s, .listv vs)]) suffix hrest hndr hdisj2).trans ?_
      simp

instance {e a : Type} [DecidableEq e] [DecidableEq a] : DecidableEq (Except e a) := fun x y =>
  match x, y with
  | .ok u, .ok v =>
    if h : u = v then .isTrue (by rw [h]) else .isFalse (fun hc => h (Except.ok.inj hc))
  | .error u, .error v =>
    if h : u = v then .isTrue (by rw [h]) else .isFalse (fun hc => h (Except.error.inj hc))
  | .ok _, .error _ => .isFalse (fun hc => Except.noConfusion hc)
  | .error _, .ok _ => .isFalse (fun hc => Except.noConfusion hc)

/-- The decode loop returns the accumulator untouched when at most two bytes
remain (the while condition offset + 2 < len fails). -/
theorem deserialize_go_short (bytes : List Nat) (acc : List ParamEntry)
    (h : bytes.length ≤ 2) : deserialize_go bytes acc = .ok acc := by
  match bytes with
  | [] => simp [deserialize_go]
  | [a] => simp [deserialize_go]
  | [a, b] => simp [deserialize_go]
  | a :: b :: c :: tl => simp at h

set_option maxRecDepth 10000 in
/-- C1 counterexample: the claim fails in two independent ways.  (1) A
singleton list does not survive the round trip: serializing SAMPLE_RATE with
value list [25] writes count byte 1, and the decoder turns count 1 into the
scalar 25, not the list [25]; a 256-element list (also capability-valid under
the claim's wording) does not even serialize — the count byte overflows.
(2) Serializer and deserializer disagree on widths: the serializer passes the
setting NAME string to get_setting_size (utils.py lines 35, 38) and so always
writes 2-byte values, while the decoder reads FACTOR values 4 bytes wide —
FACTOR -> [2, 3] serializes to [5, 2, 2, 0, 3, 0] and decodes to the single
value 196610 = 2 + 3 * 2^16. -/
theorem C1_roundtrip_counterexample :
    serialize_pmd_parameters [(.SAMPLE_RATE, .listv [25])] = .ok [0, 1, 25, 0] ∧
    deserialize_pmd_parameters [0, 1, 25, 0] = .ok [(.SAMPLE_RATE, .scalar 25)] ∧
    SettingValue.scalar 25 ≠ SettingValue.listv [25] ∧
    serialize_pmd_parameters [(.SAMPLE_RATE, .listv (List.replicate 256 0))] =
      .error .overflowError ∧
    serialize_pmd_parameters [(.FACTOR, .listv [2, 3])] = .ok [5, 2, 2, 0, 3, 0] ∧
    deserialize_pmd_parameters [5, 2, 2, 0, 3, 0] = .ok [(.FACTOR, .listv [196610])] ∧
    SettingValue.listv [196610] ≠ SettingValue.listv [2, 3] := by
  refine ⟨by decide, ?_, by decide, ?_, by decide, ?_, by decide⟩
  · simp [deserialize_pmd_parameters, deserialize_go, PMDSetting.ofValue, readValues,
      fromBytesLE, dictInsert, get_setting_size]
  · show serialize_pmd_parameters [(.SAMPLE_RATE, .listv (List.replicate 256 0))] = _
    rw [serialize_pmd_parameters]
    rw [if_neg]
    intro hcond
    have : (List.replicate 256 (0 : Nat)).length = 256 := List.length_replicate 256 0
    omega
  · simp [deserialize_pmd_parameters, deserialize_go, PMDSetting.ofValue, readValues,
      fromBytesLE, dictInsert, get_setting_size]

/-- C1 (amended): for every setting map with pairwise-distinct keys, all drawn
from the settings whose wire width is 2 bytes (SAMPLE_RATE, RESOLUTION,
RANGE — the width the serializer actually writes for everything), whose
scalar values fit 2 bytes and whose list values have between 2 and 255
elements each fitting 2 bytes, serialization succeeds and deserializing its
output returns exactly the original map, preserving entry order and the
order of list-valued settings.  (Maps containing CHANNELS, FACTOR or
RANGE_MILLIUNIT are serialized at width 2 but decoded at width 1/4/8 and do
not round-trip; singleton lists come back as scalars — see the
counterexample.) -/
theorem C1_roundtrip (m : List ParamEntry)
    (hval : ∀ e ∈ m, validEntryB e = true)
    (hnd : (m.map Prod.fst).Nodup)
    (hw2 : ∀ e ∈ m, get_setting_size e.1 = 2) :
    serialize_pmd_parameters m = .ok (serializeBytes m) ∧
    deserialize_pmd_parameters (serializeBytes m) = .ok m := by
  have hser : ∀ e ∈ m, validSerEntryB e = true := by
    intro e he
    have h1 := hval e he
    have h2 := hw2 e he
    obtain ⟨s, val⟩ := e
    simp only at h2
    cases val with
    | scalar v =>
      simp only [validEntryB, decide_eq_true_eq] at h1
      rw [h2] at h1
      simp only [validSerEntryB, decide_eq_true_eq]
      omega
    | listv vs =>
      simp only [validEntryB, Bool.and_eq_true, decide_eq_true_eq, List.all_eq_true] at h1
      simp only [validSerEntryB, Bool.and_eq_true, decide_eq_true_eq, List.all_eq_true]
      refine ⟨h1.1.2, fun v hv => ?_⟩
      have := h1.2 v hv
      rw [h2] at this
      simpa using this
  refine ⟨serialize_eq_of_valid m hser, ?_⟩
  rw [serializeBytes_eq_paramBytes m hw2]
  have h := deserialize_go_paramBytes m [] [] hval hnd (by simp)
  simp only [List.append_nil, List.nil_append] at h
  rw [deserialize_pmd_parameters, h]
  exact deserialize_go_short [] m (by simp)

/-- Witness for C1_roundtrip at the concrete map
SAMPLE_RATE -> [25, 50], RESOLUTION -> 16 (both width-2 settings). -/
theorem C1_roundtrip_witness :
    serialize_pmd_parameters [(.SAMPLE_RATE, .listv [25, 50]), (.RESOLUTION, .scalar 16)] =
      .ok (serializeBytes [(.SAMPLE_RATE, .listv [25, 50]), (.RESOLUTION, .scalar 16)]) ∧
    deserialize_pmd_parameters
        (serializeBytes [(.SAMPLE_RATE, .listv [25, 50]), (.RESOLUTION, .scalar 16)]) =
      .ok [(.SAMPLE_RATE, .listv [25, 50]), (.RESOLUTION, .scalar 16)] :=
  C1_roundtrip [(.SAMPLE_RATE, .listv [25, 50]), (.RESOLUTION, .scalar 16)]
    (by decide) (by decide) (by decide)

/-- C2 counterexample: a truncated trailing FACTOR list entry — count 2 with
only 3 of the 4 bytes of the first value present — makes deserialization
raise.  The value loop breaks, but the while loop then reinterprets the 3
leftover bytes as a new entry and raises ValueError on the undefined setting
byte 255.  This contradicts the claim that a truncated trailing entry never
raises and merely stops decoding. -/
theorem C2_truncated_counterexample :
    deserialize_pmd_parameters [PMDSetting.FACTOR.value, 2, 255, 0, 0] =
      .error .valueError := by
  simp [deserialize_pmd_parameters, deserialize_go, PMDSetting.ofValue, readValues,
    fromBytesLE, dictInsert, get_setting_size, PMDSetting.value]

/-- C2 (amended): deserialization tolerates a truncated trailing list entry
when the partial tail both is shorter than one value width and leaves at most
two bytes: no error is raised, and the result is the fully-parsed entries plus
the truncated entry holding exactly its fully-parsed values.  (A truncated
count-1 entry is instead decoded as a scalar from the partial bytes, and a
truncation leaving three or more bytes is reparsed as further entries and can
raise — see the counterexample.) -/
theorem C2_truncated_tail (m : List ParamEntry) (s : PMDSetting) (cnt : Nat)
    (vs t : List Nat)
    (hval : ∀ e ∈ m, validEntryB e = true) (hnd : (m.map Prod.fst).Nodup)
    (hs : s ∉ m.map Prod.fst)
    (hcnt2 : 2 ≤ cnt) (hlt : vs.length < cnt)
    (hfit : ∀ v ∈ vs, v < 2 ^ (8 * get_setting_size s))
    (ht : t.length < get_setting_size s) (ht2 : t.length ≤ 2)
    (hne : 1 ≤ vs.length + t.length) :
    deserialize_pmd_parameters
        (paramBytes m ++
          s.value :: cnt :: (vs.flatMap (toBytesLE (get_setting_size s)) ++ t)) =
      .ok (m ++ [(s, .listv vs)]) := by
  have hw := get_setting_size_pos s
  have hflen : (vs.flatMap (toBytesLE (get_setting_size s))).length =
      vs.length * get_setting_size s := flatMap_toBytesLE_length _ vs
  obtain ⟨b, bs, hbs⟩ : ∃ b bs,
      vs.flatMap (toBytesLE (get_setting_size s)) ++ t = b :: bs := by
    cases htb : vs.flatMap (toBytesLE (get_setting_size s)) ++ t with
    | nil =>
      exfalso
      have : vs.length * get_setting_size s + t.length = 0 := by
        have := congrArg List.length htb
        simpa [hflen] using this
      have hv0 : vs.length = 0 := by
        rcases Nat.mul_eq_zero.mp (by omega : vs.length * get_setting_size s = 0)
          with h | h <;> omega
      omega
    | cons b bs => exact ⟨b, bs, rfl⟩
  rw [deserialize_pmd_parameters,
    deserialize_go_paramBytes m []
      (s.value :: cnt :: (vs.flatMap (toBytesLE (get_setting_size s)) ++ t))
      hval hnd (by simp), hbs]
  simp only [List.nil_append]
  simp only [deserialize_go, PMDSetting.ofValue_value]
  rw [if_neg (by omega : ¬ cnt = 1)]
  rw [← hbs, readValues_trunc (get_setting_size s) cnt vs t hlt ht hfit]
  show deserialize_go t (dictInsert m s (.listv vs)) = _
  rw [dictInsert_of_not_mem m s _ hs]
  exact deserialize_go_short t _ ht2

/-- Witness for C2_truncated_tail: the bytes SAMPLE_RATE :: 2 :: 25 :: 0 :: 7
claim two 2-byte values but carry only one full value and a 1-byte tail; the
decoder returns the entry with the single fully-parsed value 25. -/
theorem C2_truncated_tail_witness :
    deserialize_pmd_parameters
        (paramBytes [] ++
          PMDSetting.SAMPLE_RATE.value :: 2 ::
            ([25].flatMap (toBytesLE (get_setting_size .SAMPLE_RATE)) ++ [7])) =
      .ok ([] ++ [(.SAMPLE_RATE, .listv [25])]) :=
  C2_truncated_tail [] .SAMPLE_RATE 2 [25] [7] (by decide) (by decide) (by decide)
    (by decide) (by decide) (by decide) (by decide) (by decide) (by decide)

/-- C10: an undefined setting-id byte at an entry-start position the decode
loop actually reaches (at least two further bytes follow, so the while
condition holds) makes deserialization raise ValueError instead of skipping
the entry or returning the entries parsed so far: the malformed-tail tolerance
does not extend to unrecognized setting-id bytes. -/
theorem C10_unknown_setting_raises (m : List ParamEntry) (b : Nat) (t : List Nat)
    (hval : ∀ e ∈ m, validEntryB e = true) (hnd : (m.map Prod.fst).Nodup)
    (hb : PMDSetting.ofValue b = none) (ht : 2 ≤ t.length) :
    deserialize_pmd_parameters (paramBytes m ++ b :: t) = .error .valueError := by
  obtain ⟨c, d, tl, rfl⟩ : ∃ c d tl, t = c :: d :: tl := by
    match t with
    | [] => simp at ht
    | [a] => simp at ht
    | c :: d :: tl => exact ⟨c, d, tl, rfl⟩
  rw [deserialize_pmd_parameters,
    deserialize_go_paramBytes m [] (b :: c :: d :: tl) hval hnd (by simp)]
  simp [deserialize_go, hb]

/-- Witness for C10 at the prefix RESOLUTION -> 16 followed by the undefined
setting byte 255 and two further bytes. -/
theorem C10_unknown_setting_raises_witness :
    deserialize_pmd_parameters (paramBytes [(.RESOLUTION, .scalar 16)] ++ 255 :: [0, 0]) =
      .error .valueError :=
  C10_unknown_setting_raises [(.RESOLUTION, .scalar 16)] 255 [0, 0]
    (by decide) (by decide) (by decide) (by decide)


/-- iter_batched(data, n, strict) consumption (utils.py lines 6-15), batch
splitting: chunksAux carries the remaining budget of the current chunk and
the current chunk reversed; structural on the data list. -/
def chunksAux (n : Nat) : List Nat → Nat → List Nat → List (List Nat)
  | [], _, cur => if cur.isEmpty then [] else [cur.reverse]
  | x :: xs, k + 1, cur => chunksAux n xs k (x :: cur)
  | x :: xs, 0, cur => cur.reverse :: chunksAux n xs (n - 1) [x]

/-- The batches of n bytes produced by iter_batched, last possibly short. -/
def chunksOf (n : Nat) (data : List Nat) : List (List Nat) :=
  chunksAux n data n []

/-- Fully consuming iter_batched(data, n, strict := True): ValueError when
n < 1 or when the final batch is incomplete (length not a multiple of n),
since the generator raises at that batch and the caller discards the
partially built result. -/
def batchedStrict (n : Nat) (data : List Nat) : Except PyError (List (List Nat)) :=
  if n < 1 then .error .valueError
  else if data.length % n = 0 then .ok (chunksOf n data) else .error .valueError

/-- int.from_bytes(bs, "little", signed := True). -/
def fromBytesSLE (bs : List Nat) : Int :=
  let u := fromBytesLE bs
  if 2 ^ (8 * bs.length - 1) ≤ u then (u : Int) - 2 ^ (8 * bs.length) else (u : Int)

/-- The decoded sample channels of one PMD data frame. -/
inductive Processed where
  | ecg (lead1 : List Int)
  | acc (x y z : List Int)
deriving DecidableEq, Repr

/-- process_ecg_samples (utils.py lines 114-138): frame_type must be 0; the
payload is split into strict 3-byte batches, each a signed little-endian
sample of channel lead_1; returns the sample count and the channel. -/
def process_ecg_samples (frame_type : Nat) (data : List Nat) :
    Except PyError (Nat × Processed) :=
  if frame_type ≠ 0 then .error .valueError
  else
    match batchedStrict 3 data with
    | .error e => .error e
    | .ok chs => .ok (chs.length, .ecg (chs.map fromBytesSLE))

/-- process_acc_samples (utils.py lines 141-166): frame_type in 0..2 selects
the per-axis width frame_type + 1; the payload is split into strict blocks of
3 widths, each decoding to one (x, y, z) sample of signed little-endian
values. -/
def process_acc_samples (frame_type : Nat) (data : List Nat) :
    Except PyError (Nat × Processed) :=
  if 2 < frame_type then .error .valueError
  else
    let ss := frame_type + 1
    match batchedStrict (ss * 3) data with
    | .error e => .error e
    | .ok frames =>
      .ok (frames.length,
        .acc (frames.map (fun f => fromBytesSLE (f.take ss)))
          (frames.map (fun f => fromBytesSLE ((f.drop ss).take ss)))
          (frames.map (fun f => fromBytesSLE ((f.drop (2 * ss)).take ss))))

/-- The decoded heart-rate measurement: a Python dict whose optional keys are
present exactly when the corresponding flag bit is set. -/
structure HRSample where
  heart_rate : Nat
  sensor_contact : Option Bool
  energy_expended : Option Nat
  rr_interval : Option (List Nat)
deriving DecidableEq, Repr

/-- process_hr_samples (utils.py lines 169-202).  Inputs shorter than 2 bytes
yield no result (ok none).  Flag bit 0 selects a 16-bit heart rate (slices
clamp when truncated), bit 2 gates sensor contact (bit 1 the value), bit 3 a
2-byte energy-expended field, bit 4 RR intervals: strict 2-byte batches, each
scaled by value * 1000 / 1024 — an odd RR tail raises ValueError. -/
def process_hr_samples (data : List Nat) : Except PyError (Option HRSample) :=
  match data with
  | [] => .ok none
  | [_] => .ok none
  | flags :: b1 :: rest =>
    let pr :=
      if flags.testBit 0 then (fromBytesLE ((b1 :: rest).take 2), (b1 :: rest).drop 2)
      else (b1, rest)
    let contact := if flags.testBit 2 then some (flags.testBit 1) else none
    let pr2 :=
      if flags.testBit 3 then (some (fromBytesLE (pr.2.take 2)), pr.2.drop 2)
      else (none, pr.2)
    if flags.testBit 4 then
      if pr2.2.length % 2 = 0 then
        .ok (some ⟨pr.1, contact, pr2.1,
          some ((chunksOf 2 pr2.2).map (fun c => fromBytesLE c * 1000 / 1024))⟩)
      else .error .valueError
    else .ok (some ⟨pr.1, contact, pr2.1, none⟩)

/-- C9: process_hr_samples decodes the four reference payloads exactly as the
spec states, and every input shorter than 2 bytes yields no result (ok none)
rather than raising. -/
theorem C9_hr_reference_vectors :
    (process_hr_samples [0x01, 0x54] = .ok (some ⟨84, none, none, none⟩) ∧
      process_hr_samples [0x17, 0x14, 0x01, 0x9f, 0x03] =
        .ok (some ⟨276, some true, none, some [905]⟩) ∧
      process_hr_samples [0x14, 0x54, 0x44, 0x03, 0x5f, 0x03] =
        .ok (some ⟨84, some false, none, some [816, 842]⟩) ∧
      process_hr_samples [0x1e, 0x54, 0x49, 0x00, 0x9f, 0x03] =
        .ok (some ⟨84, some true, some 73, some [905]⟩)) ∧
    ∀ data : List Nat, data.length < 2 → process_hr_samples data = .ok none := by
  refine ⟨by decide, ?_⟩
  intro data h
  match data with
  | [] => rfl
  | [_] => rfl
  | a :: b :: rest => exact absurd h (by simp)

/-- Witness for the short-input half of C9 at the 1-byte input [5]. -/
theorem C9_hr_reference_vectors_witness : process_hr_samples [5] = .ok none :=
  C9_hr_reference_vectors.2 [5] (by decide)

/-- get_timestamps_list (utils.py lines 78-111) on Python ints.  The three
ValueError guards mirror lines 93-99.  timestamp_delta is int(1e9 //
sample_rate) and calculate_timestamp_delta the floor quotient of the frame
span by the sample count (Python // is floor division, Int.fdiv).  The float
deviation test abs((calculate - ideal) / ideal) > 0.1 is modelled as the
exact rational comparison 10 * |calculate - ideal| > ideal; a zero ideal
delta raises ZeroDivisionError exactly as the Python division does. -/
def get_timestamps_list (n_samples sample_rate timestamp p_timestamp delta : Int) :
    Except PyError (List Int) :=
  if n_samples ≤ 0 then .error .valueError
  else if sample_rate ≤ 0 then .error .valueError
  else if timestamp < p_timestamp then .error .valueError
  else if Int.fdiv (10 ^ 9) sample_rate = 0 then .error .zeroDivisionError
  else if 10 * |Int.fdiv (timestamp - p_timestamp) n_samples - Int.fdiv (10 ^ 9) sample_rate| >
      Int.fdiv (10 ^ 9) sample_rate then
    .ok ((List.range n_samples.toNat).map (fun (i : Nat) =>
      (timestamp - n_samples * Int.fdiv (10 ^ 9) sample_rate + Int.fdiv (10 ^ 9) sample_rate) +
        (i : Int) * Int.fdiv (10 ^ 9) sample_rate + delta))
  else
    .ok ((List.range n_samples.toNat).map (fun (i : Nat) =>
      (p_timestamp + Int.fdiv (timestamp - p_timestamp) n_samples) +
        (i : Int) * Int.fdiv (timestamp - p_timestamp) n_samples + delta))

/-- Lines 116-124 of polar_h10.py as they affect one measurement kind's clock
state: compute the timestamp list, then store the frame timestamp as the new
previous_frame_timestamp. -/
def handle_frame_clock (n_samples sample_rate timestamp p_timestamp delta : Int) :
    Except PyError (List Int × Int) :=
  match get_timestamps_list n_samples sample_rate timestamp p_timestamp delta with
  | .error e => .error e
  | .ok l => .ok (l, timestamp)

/-- C6 counterexample: at n_samples = 1, sample_rate = 2e9, timestamp = 5,
previous = 0 all three stated preconditions hold, yet the function raises:
int(1e9 // sample_rate) is 0 and the deviation test divides by it
(ZeroDivisionError).  So "raises iff a precondition is violated" is false. -/
theorem C6_precondition_counterexample :
    (0 : Int) < 1 ∧ (0 : Int) < 2 * 10 ^ 9 ∧ (0 : Int) ≤ 5 ∧
    get_timestamps_list 1 (2 * 10 ^ 9) 5 0 0 = .error .zeroDivisionError := by
  decide

/-- The ideal spacing int(1e9 // sample_rate) is zero exactly when the sample
rate exceeds 1e9. -/
theorem ideal_delta_eq_zero_iff (sr : Int) (h : 0 < sr) :
    Int.fdiv (10 ^ 9) sr = 0 ↔ 10 ^ 9 < sr := by
  rw [Int.fdiv_eq_ediv _ (le_of_lt h)]
  constructor
  · intro h0
    by_contra hle
    push_neg at hle
    have h1 : (1 : Int) ≤ 10 ^ 9 / sr := by
      rw [Int.le_ediv_iff_mul_le h]
      simpa using hle
    omega
  · intro hlt
    exact Int.ediv_eq_zero_of_lt (by norm_num) hlt

/-- C6 (amended): get_timestamps_list raises exactly when n_samples <= 0,
sample_rate <= 0, timestamp < previous_frame_timestamp, or additionally when
sample_rate > 1e9 (the integer ideal spacing is then 0 and the deviation test
raises ZeroDivisionError); on every input passing the three stated
preconditions with sample_rate <= 1e9 it returns exactly n_samples
timestamps. -/
theorem C6_raise_iff (n sr t p d : Int) :
    ((∃ e, get_timestamps_list n sr t p d = .error e) ↔
      (n ≤ 0 ∨ sr ≤ 0 ∨ t < p ∨ 10 ^ 9 < sr)) ∧
    (0 < n → 0 < sr → p ≤ t → sr ≤ 10 ^ 9 →
      ∃ l, get_timestamps_list n sr t p d = .ok l ∧ l.length = n.toNat) := by
  constructor
  · unfold get_timestamps_list
    by_cases h1 : n ≤ 0
    · rw [if_pos h1]
      exact ⟨fun _ => Or.inl h1, fun _ => ⟨.valueError, rfl⟩⟩
    rw [if_neg h1]
    by_cases h2 : sr ≤ 0
    · rw [if_pos h2]
      exact ⟨fun _ => Or.inr (Or.inl h2), fun _ => ⟨.valueError, rfl⟩⟩
    rw [if_neg h2]
    by_cases h3 : t < p
    · rw [if_pos h3]
      exact ⟨fun _ => Or.inr (Or.inr (Or.inl h3)), fun _ => ⟨.valueError, rfl⟩⟩
    rw [if_neg h3]
    have hpos : 0 < sr := by omega
    by_cases h4 : Int.fdiv (10 ^ 9) sr = 0
    · rw [if_pos h4]
      exact ⟨fun _ => Or.inr (Or.inr (Or.inr ((ideal_delta_eq_zero_iff sr hpos).mp h4))),
        fun _ => ⟨.zeroDivisionError, rfl⟩⟩
    rw [if_neg h4]
    have h9 : ¬ 10 ^ 9 < sr := fun hlt => h4 ((ideal_delta_eq_zero_iff sr hpos).mpr hlt)
    constructor
    · rintro ⟨e, he⟩
      by_cases h6 : 10 * |Int.fdiv (t - p) n - Int.fdiv (10 ^ 9) sr| > Int.fdiv (10 ^ 9) sr
      · rw [if_pos h6] at he
        exact Except.noConfusion he
      · rw [if_neg h6] at he
        exact Except.noConfusion he
    · rintro (hc | hc | hc | hc)
      · exact absurd hc h1
      · exact absurd hc h2
      · exact absurd hc h3
      · exact absurd hc h9
  · intro hn hsr htp hsr9
    have h4 : ¬ Int.fdiv (10 ^ 9) sr = 0 := fun h0 => by
      have := (ideal_delta_eq_zero_iff sr hsr).mp h0
      omega
    unfold get_timestamps_list
    rw [if_neg (by omega : ¬ n ≤ 0), if_neg (by omega : ¬ sr ≤ 0),
      if_neg (by omega : ¬ t < p), if_neg h4]
    by_cases h6 : 10 * |Int.fdiv (t - p) n - Int.fdiv (10 ^ 9) sr| > Int.fdiv (10 ^ 9) sr
    · rw [if_pos h6]
      exact ⟨_, rfl, by simp⟩
    · rw [if_neg h6]
      exact ⟨_, rfl, by simp⟩

/-- Witness for C6_raise_iff: at n_samples = 2, sample_rate = 130,
timestamp = 1e9, previous = 0 the preconditions hold and a 2-element list is
returned. -/
theorem C6_raise_iff_witness :
    ∃ l, get_timestamps_list 2 130 (10 ^ 9) 0 5 = .ok l ∧ l.length = (2 : Int).toNat :=
  (C6_raise_iff 2 130 (10 ^ 9) 0 5).2 (by decide) (by decide) (by decide) (by decide)

/-- C3 counterexample: with previous = 0, timestamp = 10, n_samples = 3 and
sample_rate = 333333333 (ideal and observed spacing both 3, no rebase) the
emitted list is [3, 6, 9] but the stored previous_frame_timestamp becomes the
frame timestamp 10, not the last emitted value 9 — the claim's final clause
is false.  Moreover at sample_rate = 2e9 > 1e9 (all claim hypotheses hold)
nothing is emitted at all: the call raises ZeroDivisionError. -/
theorem C3_stored_timestamp_counterexample :
    handle_frame_clock 3 333333333 10 0 0 = .ok ([3, 6, 9], 10) ∧
    (10 : Int) ≠ 9 ∧
    handle_frame_clock 1 (2 * 10 ^ 9) 5 0 0 = .error .zeroDivisionError := by
  decide

/-- C3 (amended): for every frame with n_samples > 0, 0 < sample_rate <= 1e9
and timestamp >= previous: the emitted list is
previous + spacing * (i + 1) + device_time_delta for i in [0, n_samples),
where spacing is the observed floor spacing (timestamp - previous) // n_samples
unless it deviates by more than 10 percent from the ideal floor spacing
1e9 // sample_rate, in which case the ideal spacing is used with previous
rebased to timestamp - n_samples * ideal (anchoring the frame end); and the
stored previous_frame_timestamp is updated to the frame's device timestamp
(not to the last emitted value, which it equals only in the rebase case or
when n_samples divides the span). -/
theorem C3_timestamps (n sr t p d : Int) (hn : 0 < n) (hsr : 0 < sr)
    (hsr9 : sr ≤ 10 ^ 9) (htp : p ≤ t) :
    handle_frame_clock n sr t p d =
      .ok ((if 10 * |Int.fdiv (t - p) n - Int.fdiv (10 ^ 9) sr| > Int.fdiv (10 ^ 9) sr then
          (List.range n.toNat).map (fun (i : Nat) =>
            (t - n * Int.fdiv (10 ^ 9) sr) + ((i : Int) + 1) * Int.fdiv (10 ^ 9) sr + d)
        else
          (List.range n.toNat).map (fun (i : Nat) =>
            p + ((i : Int) + 1) * Int.fdiv (t - p) n + d)), t) := by
  have h4 : ¬ Int.fdiv (10 ^ 9) sr = 0 := fun h0 => by
    have := (ideal_delta_eq_zero_iff sr hsr).mp h0
    omega
  have hg : get_timestamps_list n sr t p d =
      .ok (if 10 * |Int.fdiv (t - p) n - Int.fdiv (10 ^ 9) sr| > Int.fdiv (10 ^ 9) sr then
          (List.range n.toNat).map (fun (i : Nat) =>
            (t - n * Int.fdiv (10 ^ 9) sr) + ((i : Int) + 1) * Int.fdiv (10 ^ 9) sr + d)
        else
          (List.range n.toNat).map (fun (i : Nat) =>
            p + ((i : Int) + 1) * Int.fdiv (t - p) n + d)) := by
    unfold get_timestamps_list
    rw [if_neg (by omega : ¬ n ≤ 0), if_neg (by omega : ¬ sr ≤ 0),
      if_neg (by omega : ¬ t < p), if_neg h4]
    by_cases h6 : 10 * |Int.fdiv (t - p) n - Int.fdiv (10 ^ 9) sr| > Int.fdiv (10 ^ 9) sr
    · rw [if_pos h6, if_pos h6]
      congr 1
      exact List.map_congr_left fun i _ => by ring
    · rw [if_neg h6, if_neg h6]
      congr 1
      exact List.map_congr_left fun i _ => by ring
  unfold handle_frame_clock
  rw [hg]

/-- Witness for C3_timestamps at the no-rebase frame (3, 333333333, 10, 0, 0). -/
theorem C3_timestamps_witness :
    handle_frame_clock 3 333333333 10 0 0 = .ok ([3, 6, 9], (10 : Int)) := by
  rw [C3_timestamps 3 333333333 10 0 0 (by decide) (by decide) (by decide) (by decide)]
  decide


/-- NotificationType (src/polar_h10/core/polar_h10.py lines 20-27). -/
inductive NotificationType where
  | ECG
  | ACC
  | BATTERY_LVL
  | DISCONNECT
  | HEAR_RATE
deriving DecidableEq, Repr

/-- Wire/enum values of NotificationType (src). -/
def NotificationType.value : NotificationType → Nat
  | .ECG => 0
  | .ACC => 2
  | .BATTERY_LVL => 101
  | .DISCONNECT => 102
  | .HEAR_RATE => 201

/-- Modelled from the spec: enums.py is absent from src/.  PMDMeasurement
covers the PMD-governed kinds of §3 (ECG, ACCELEROMETER); their wire values 0
and 2 are pinned by NotificationType(measurement_type.value) in src, which
requires the PMD values to coincide with the NotificationType values. -/
inductive PMDMeasurement where
  | ECG
  | ACC
deriving DecidableEq, Repr

def PMDMeasurement.value : PMDMeasurement → Nat
  | .ECG => 0
  | .ACC => 2

/-- PMDMeasurement(byte); none models the ValueError for undefined values. -/
def PMDMeasurement.ofValue (n : Nat) : Option PMDMeasurement :=
  if n = 0 then some .ECG else if n = 2 then some .ACC else none

/-- NotificationType(measurement_type.value) on the modelled kinds. -/
def PMDMeasurement.toNotification : PMDMeasurement → NotificationType
  | .ECG => .ECG
  | .ACC => .ACC

/-- Modelled from the spec: enums.py is absent from src/.  The three
control-point commands of §6; concrete byte values only need to be distinct. -/
inductive PMDCommand where
  | GET_MEASUREMENT_SETTINGS
  | START_MEASUREMENT
  | STOP_MEASUREMENT
deriving DecidableEq, Repr

def PMDCommand.value : PMDCommand → Nat
  | .GET_MEASUREMENT_SETTINGS => 1
  | .START_MEASUREMENT => 2
  | .STOP_MEASUREMENT => 3

/-- Modelled from the spec: enums.py is absent from src/.  §4.4 treats the
transaction status as the raw response byte ("status = response byte"), with 0
denoting SUCCESS; the modelled conversion PMDStatus(byte) is therefore total
on bytes. -/
structure PMDStatus where
  code : Nat
deriving DecidableEq, Repr

def PMDStatus.SUCCESS : PMDStatus := ⟨0⟩

def PMDStatus.ERROR_INVALID_STATE : PMDStatus := ⟨12⟩

/-- Python dict lookup d.get(k) on an association list. -/
def alookup {α β : Type} [DecidableEq α] : List (α × β) → α → Option β
  | [], _ => none
  | (k0, v0) :: t, k => if k0 = k then some v0 else alookup t k

/-- Python dict assignment d[k] = v: replace in place, else append. -/
def setKey {α β : Type} [DecidableEq α] : List (α × β) → α → β → List (α × β)
  | [], k, v => [(k, v)]
  | (k0, v0) :: t, k, v => if k0 = k then (k0, v) :: t else (k0, v0) :: setKey t k v

/-- Python del d[k]: drop the (unique) entry with key k. -/
def delKey {α β : Type} [DecidableEq α] : List (α × β) → α → List (α × β)
  | [], _ => []
  | (k0, v0) :: t, k => if k0 = k then t else (k0, v0) :: delKey t k

/-- Key-set counterpart of dict assignment for the callback table (the
callback functions themselves are irrelevant to the claims, only which kinds
have one attached). -/
def addElem {α : Type} [DecidableEq α] (l : List α) (k : α) : List α :=
  if k ∈ l then l else l ++ [k]

/-- Key-set counterpart of del for the callback table. -/
def delElem {α : Type} [DecidableEq α] : List α → α → List α
  | [], _ => []
  | x :: t, k => if x = k then t else x :: delElem t k

/-- The PolarH10 instance state relevant to the claims: which kinds have a
callback attached (self._callbacks keys), per-kind active configuration
(self._current_config, possibly None), per-kind previous frame timestamp
(self._p_timestamp), the device/host clock offset (self._device_time_delta)
and the advertised capability configuration (self._config). -/
structure DeviceState where
  callbacks : List NotificationType
  currentConfig : List (NotificationType × Option (List (PMDSetting × Nat)))
  pTimestamp : List (NotificationType × Int)
  deviceTimeDelta : Int
  config : List (NotificationType × List ParamEntry)
deriving DecidableEq, Repr

/-- One delivered streamed-data callback invocation. -/
inductive CallbackEvent where
  | pmd (kind : NotificationType) (time : List Int) (processed : Processed)
deriving DecidableEq, Repr

/-- PolarH10._handle_pmd_data (src/polar_h10/core/polar_h10.py lines 85-128)
for one notification, given the host time now (already offset-adjusted).
Returns the post-call state and either the raised exception or the callback
invocation (none when the frame is dropped without a callback).  Faithful
points: the clock resynchronization at lines 95-98 runs before the callback
lookup and the decode; the except block at lines 113-114 only logs — control
falls through, so a decode failure surfaces later as UnboundLocalError when
get_timestamps_list's first argument n_samples is evaluated; the stored
previous timestamp is only written after a successful timestamp-list
computation. -/
def handle_pmd_data (st : DeviceState) (now : Int) (data : List Nat) :
    DeviceState × Except PyError (Option CallbackEvent) :=
  match data.head? with
  | none => (st, .error .indexError)
  | some b0 =>
    match PMDMeasurement.ofValue b0 with
    | none => (st, .error .valueError)
    | some mt =>
      let timestamp : Int := (fromBytesLE ((data.drop 1).take 8) : Nat)
      match data.get? 9 with
      | none => (st, .error .indexError)
      | some frame_type =>
        let samples := data.drop 10
        let drift := now - timestamp - st.deviceTimeDelta
        let st1 := if 10 ^ 9 < |drift| then
            { st with deviceTimeDelta := st.deviceTimeDelta + drift }
          else st
        let nt := mt.toNotification
        if nt ∈ st1.callbacks then
          let res := match mt with
            | .ECG => process_ecg_samples frame_type samples
            | .ACC => process_acc_samples frame_type samples
          match alookup st1.currentConfig nt with
          | none => (st1, .error .keyError)
          | some none => (st1, .error .typeError)
          | some (some cfg) =>
            match alookup cfg .SAMPLE_RATE with
            | none => (st1, .error .keyError)
            | some sr =>
              match res with
              | .error _ => (st1, .error .unboundLocalError)
              | .ok pr =>
                match alookup st1.pTimestamp nt with
                | none => (st1, .error .keyError)
                | some pts =>
                  match get_timestamps_list (pr.1 : Int) (sr : Int) timestamp pts
                      st1.deviceTimeDelta with
                  | .error e => (st1, .error e)
                  | .ok tl =>
                    ({ st1 with pTimestamp := setKey st1.pTimestamp nt timestamp },
                      .ok (some (.pmd nt tl pr.2)))
        else (st1, .ok none)

/-- C4: the code slip behind the claim.  A registered ECG stream receives a
frame with unsupported frame_type 3 while the host clock has drifted more
than one second: the decode raises, the except block logs without returning,
and the handler then dies with UnboundLocalError (n_samples was never bound).
The frame is indeed dropped without a callback and previous_frame_timestamp
is untouched, but device_time_delta was already resynchronized earlier in the
same call and the exception escapes the handler — contradicting "clock state
unchanged" and "not fatal" as stated; the except block plainly intends to
drop the frame and continue. -/
theorem C4_decode_failure_divergence :
    handle_pmd_data
        ⟨[.ECG], [(.ECG, some [(.SAMPLE_RATE, 130)])], [(.ECG, 0)], 0,
          [(.ECG, [(.SAMPLE_RATE, .listv [130])])]⟩
        (1000 + 2 * 10 ^ 9)
        (0 :: (toBytesLE 8 1000 ++ [3])) =
      (⟨[.ECG], [(.ECG, some [(.SAMPLE_RATE, 130)])], [(.ECG, 0)], 2 * 10 ^ 9,
          [(.ECG, [(.SAMPLE_RATE, .listv [130])])]⟩,
        .error .unboundLocalError) ∧
    (2 * 10 ^ 9 : Int) ≠ 0 := by
  decide


/-- Defaults pass of PolarH10._validate_pmd_parameters (polar_h10.py lines
243-248): every capability defaults to its last-listed option (v[-1], an
IndexError on an empty capability list) or to the scalar itself. -/
def buildDefaults : List ParamEntry → Except PyError (List (PMDSetting × Nat))
  | [] => .ok []
  | (k, .scalar v) :: t =>
    match buildDefaults t with
    | .error e => .error e
    | .ok ps => .ok ((k, v) :: ps)
  | (k, .listv vs) :: t =>
    match vs.getLast? with
    | none => .error .indexError
    | some v =>
      match buildDefaults t with
      | .error e => .error e
      | .ok ps => .ok ((k, v) :: ps)

/-- Validation pass of _validate_pmd_parameters (lines 257-263): every merged
setting must exist in the capability map and its value must be a member of
that setting's capability list; membership against a scalar capability is the
Python TypeError (value in int). -/
def validateAll (cfgE : List ParamEntry) : List (PMDSetting × Nat) → Except PyError Unit
  | [] => .ok ()
  | (k, v) :: t =>
    match alookup cfgE k with
    | none => .error .valueError
    | some (.scalar _) => .error .typeError
    | some (.listv vs) => if v ∈ vs then validateAll cfgE t else .error .valueError

/-- PolarH10._validate_pmd_parameters (polar_h10.py lines 230-264) given the
capability entries of the requested kind: build defaults, return None when
the kind has no configurable settings, return the defaults when the caller
supplied none, else overlay the caller's overrides and validate every merged
entry. -/
def validate_pmd_parameters (cfgE : List ParamEntry)
    (parameters : Option (List (PMDSetting × Nat))) :
    Except PyError (Option (List (PMDSetting × Nat))) :=
  match buildDefaults cfgE with
  | .error e => .error e
  | .ok params =>
    if params.isEmpty then .ok none
    else
      match parameters with
      | none => .ok (some params)
      | some ps =>
        if ps.isEmpty then .ok (some params)
        else
          match validateAll cfgE
              (ps.foldl (fun acc kv => setKey acc kv.1 kv.2) params) with
          | .error e => .error e
          | .ok _ => .ok (some (ps.foldl (fun acc kv => setKey acc kv.1 kv.2) params))

/-- PolarH10.register_notification (polar_h10.py lines 320-369).  The
transport effects (HR subscribe, control-point transaction) are abstracted:
startStatus is the status the START_MEASUREMENT transaction reports.
Faithful points: unsupported/already-registered ValueErrors precede any
mutation; callback and current_config are installed optimistically;
HEAR_RATE and the value >= 100 kinds return right after installation;
otherwise p_timestamp[kind] is reset to 0 inside the try block, and any
exception there — serializing a None config (TypeError), a value overflow, or
the non-success status (PolarH10Error) — deletes the optimistic callback and
current_config entries before re-raising; p_timestamp is not rolled back. -/
def register_notification (st : DeviceState) (ntype : NotificationType)
    (parameters : Option (List (PMDSetting × Nat))) (startStatus : PMDStatus) :
    DeviceState × Except PyError Unit :=
  match alookup st.config ntype with
  | none => (st, .error .valueError)
  | some cfgE =>
    if ntype ∈ st.callbacks then (st, .error .valueError)
    else
      match validate_pmd_parameters cfgE parameters with
      | .error e => (st, .error e)
      | .ok valid_params =>
        let st1 := { st with callbacks := addElem st.callbacks ntype,
                             currentConfig := setKey st.currentConfig ntype valid_params }
        if ntype = .HEAR_RATE then (st1, .ok ())
        else if 100 ≤ ntype.value then (st1, .ok ())
        else
          let st2 := { st1 with pTimestamp := setKey st1.pTimestamp ntype 0 }
          let rollback := { st2 with callbacks := delElem st2.callbacks ntype,
                                     currentConfig := delKey st2.currentConfig ntype }
          match valid_params with
          | none => (rollback, .error .typeError)
          | some vp =>
            match serialize_pmd_parameters
                (vp.map (fun kv => (kv.1, SettingValue.scalar kv.2))) with
            | .error e => (rollback, .error e)
            | .ok _ =>
              if startStatus = PMDStatus.SUCCESS then (st2, .ok ())
              else (rollback, .error .polarH10Error)

/-- PolarH10.remove_notification (polar_h10.py lines 371-406).  stopStatus is
the status the STOP_MEASUREMENT transaction reports.  Faithful points: for
HEAR_RATE the source calls _enable_hr_notification (the copy-paste slip the
spec flags) and returns without removing anything; kinds with value >= 100
likewise return with the callback still attached; for PMD-governed kinds a
non-success status raises PolarH10Error without removing anything, and on
success the callback entry is deleted before the current_config entry. -/
def remove_notification (st : DeviceState) (ntype : NotificationType)
    (stopStatus : PMDStatus) : DeviceState × Except PyError Unit :=
  match alookup st.config ntype with
  | none => (st, .error .valueError)
  | some _ =>
    if ntype ∈ st.callbacks then
      if ntype = .HEAR_RATE then (st, .ok ())
      else if 100 ≤ ntype.value then (st, .ok ())
      else if stopStatus = PMDStatus.SUCCESS then
        match alookup st.currentConfig ntype with
        | none => ({ st with callbacks := delElem st.callbacks ntype }, .error .keyError)
        | some _ =>
          ({ st with callbacks := delElem st.callbacks ntype,
                     currentConfig := delKey st.currentConfig ntype }, .ok ())
      else (st, .error .polarH10Error)
    else (st, .error .valueError)

theorem not_mem_delElem {α : Type} [DecidableEq α] (l : List α) (k : α) (h : l.Nodup) :
    k ∉ delElem l k := by
  induction l with
  | nil => simp [delElem]
  | cons x t ih =>
    simp only [List.nodup_cons] at h
    simp only [delElem]
    split
    · next hx =>
      subst hx
      exact h.1
    · next hx =>
      intro hmem
      rcases List.mem_cons.mp hmem with h1 | h1
      · exact hx h1.symm
      · exact ih h.2 h1

theorem alookup_eq_none_of_not_mem {α β : Type} [DecidableEq α] (l : List (α × β)) (k : α)
    (h : k ∉ l.map Prod.fst) : alookup l k = none := by
  induction l with
  | nil => rfl
  | cons e t ih =>
    obtain ⟨k0, v0⟩ := e
    simp only [List.map_cons, List.mem_cons] at h
    push_neg at h
    simp only [alookup]
    rw [if_neg (fun hk => h.1 hk.symm)]
    exact ih h.2

theorem alookup_delKey {α β : Type} [DecidableEq α] (l : List (α × β)) (k : α)
    (h : (l.map Prod.fst).Nodup) : alookup (delKey l k) k = none := by
  induction l with
  | nil => rfl
  | cons e t ih =>
    obtain ⟨k0, v0⟩ := e
    simp only [List.map_cons, List.nodup_cons] at h
    simp only [delKey]
    split
    · next hx =>
      subst hx
      exact alookup_eq_none_of_not_mem t k0 h.1
    · next hx =>
      simp only [alookup]
      rw [if_neg (fun hk => hx hk)]
      exact ih h.2

theorem delElem_append_self {α : Type} [DecidableEq α] (l : List α) (k : α) (h : k ∉ l) :
    delElem (l ++ [k]) k = l := by
  induction l with
  | nil => simp [delElem]
  | cons x t ih =>
    simp only [List.mem_cons] at h
    push_neg at h
    simp only [List.cons_append, delElem, List.append_eq]
    rw [if_neg (fun hx => h.1 hx.symm), ih h.2]

theorem delKey_setKey {α β : Type} [DecidableEq α] (l : List (α × β)) (k : α) (v : β)
    (h : k ∉ l.map Prod.fst) : delKey (setKey l k v) k = l := by
  induction l with
  | nil => simp [setKey, delKey]
  | cons e t ih =>
    obtain ⟨k0, v0⟩ := e
    simp only [List.map_cons, List.mem_cons] at h
    push_neg at h
    simp only [setKey]
    rw [if_neg (fun hx => h.1 hx.symm)]
    simp only [delKey]
    rw [if_neg (fun hx => h.1 hx.symm), ih h.2]


/-- C5 counterexample: with a HEART_RATE callback registered,
remove_notification returns without raising (it re-enables HR notifications —
the copy-paste slip the spec flags — and deletes nothing), yet the callback
is still attached and an immediately following register_notification fails
with the already-registered ValueError. -/
theorem C5_remove_hr_counterexample :
    remove_notification ⟨[.HEAR_RATE], [(.HEAR_RATE, none)], [], 0, [(.HEAR_RATE, [])]⟩
        .HEAR_RATE PMDStatus.SUCCESS =
      (⟨[.HEAR_RATE], [(.HEAR_RATE, none)], [], 0, [(.HEAR_RATE, [])]⟩, .ok ()) ∧
    NotificationType.HEAR_RATE ∈
      (⟨[.HEAR_RATE], [(.HEAR_RATE, none)], [], 0, [(.HEAR_RATE, [])]⟩ :
        DeviceState).callbacks ∧
    register_notification ⟨[.HEAR_RATE], [(.HEAR_RATE, none)], [], 0, [(.HEAR_RATE, [])]⟩
        .HEAR_RATE none PMDStatus.SUCCESS =
      (⟨[.HEAR_RATE], [(.HEAR_RATE, none)], [], 0, [(.HEAR_RATE, [])]⟩,
        .error .valueError) := by
  decide

/-- C5 (amended): for the PMD-governed kinds (ECG, ACCELEROMETER) with a
registered callback, a remove_notification call that returns without raising
leaves no callback attached for that kind and no active-config entry, so an
immediately following register_notification cannot fail the
already-registered check.  (For HEART_RATE, BATTERY and DISCONNECT the source
returns without detaching anything — see the counterexample.) -/
theorem C5_remove_pmd_clears (st st2 : DeviceState) (ntype : NotificationType)
    (stopStatus : PMDStatus)
    (hkind : ntype = .ECG ∨ ntype = .ACC)
    (hnodupC : st.callbacks.Nodup)
    (hnodupK : (st.currentConfig.map Prod.fst).Nodup)
    (hok : remove_notification st ntype stopStatus = (st2, .ok ())) :
    ntype ∉ st2.callbacks ∧ alookup st2.currentConfig ntype = none := by
  unfold remove_notification at hok
  cases hcfg : alookup st.config ntype with
  | none =>
    rw [hcfg] at hok
    simp at hok
  | some cfgE =>
    rw [hcfg] at hok
    by_cases hmem : ntype ∈ st.callbacks
    · rw [if_pos hmem] at hok
      have hhr : ¬ ntype = .HEAR_RATE := by
        rcases hkind with h | h <;> subst h <;> decide
      rw [if_neg hhr] at hok
      have hv : ¬ (100 ≤ ntype.value) := by
        rcases hkind with h | h <;> subst h <;> decide
      rw [if_neg hv] at hok
      by_cases hss : stopStatus = PMDStatus.SUCCESS
      · rw [if_pos hss] at hok
        cases hcc : alookup st.currentConfig ntype with
        | none =>
          rw [hcc] at hok
          simp at hok
        | some cfg =>
          rw [hcc] at hok
          simp only [Prod.mk.injEq] at hok
          obtain ⟨h1, -⟩ := hok
          subst h1
          exact ⟨not_mem_delElem st.callbacks ntype hnodupC,
            alookup_delKey st.currentConfig ntype hnodupK⟩
      · rw [if_neg hss] at hok
        simp at hok
    · rw [if_neg hmem] at hok
      simp at hok

/-- Witness for C5_remove_pmd_clears: removing a registered ECG stream with a
success status leaves no ECG callback and no ECG active-config entry. -/
theorem C5_remove_pmd_clears_witness :
    NotificationType.ECG ∉
      (⟨[], [], [(.ECG, 0)], 0, [(.ECG, [(.SAMPLE_RATE, .listv [130])])]⟩ :
        DeviceState).callbacks ∧
    alookup (⟨[], [], [(.ECG, 0)], 0, [(.ECG, [(.SAMPLE_RATE, .listv [130])])]⟩ :
        DeviceState).currentConfig .ECG = none :=
  C5_remove_pmd_clears
    ⟨[.ECG], [(.ECG, some [(.SAMPLE_RATE, 130)])], [(.ECG, 0)], 0,
      [(.ECG, [(.SAMPLE_RATE, .listv [130])])]⟩
    ⟨[], [], [(.ECG, 0)], 0, [(.ECG, [(.SAMPLE_RATE, .listv [130])])]⟩
    .ECG PMDStatus.SUCCESS (Or.inl rfl) (by decide) (by decide) (by decide)

/-- C7: register_notification fails atomically.  A second register call for
an already-registered kind raises the ValueError with the state untouched;
and for a PMD-governed kind whose START_MEASUREMENT transaction reports a
non-success status, the optimistically installed callback and active-config
entries are both removed again before PolarH10Error is raised — only the
p_timestamp reset survives, callbacks and current_config are exactly as
before the call. -/
theorem C7_register_atomic (st : DeviceState) (ntype : NotificationType)
    (params : Option (List (PMDSetting × Nat))) (status : PMDStatus)
    (cfgE : List ParamEntry) (hcfg : alookup st.config ntype = some cfgE) :
    (ntype ∈ st.callbacks →
      register_notification st ntype params status = (st, .error .valueError)) ∧
    (∀ vp bs, ntype ∉ st.callbacks → ntype ∉ st.currentConfig.map Prod.fst →
      validate_pmd_parameters cfgE params = .ok (some vp) →
      (ntype = .ECG ∨ ntype = .ACC) →
      serialize_pmd_parameters (vp.map (fun kv => (kv.1, SettingValue.scalar kv.2))) =
        .ok bs →
      status ≠ PMDStatus.SUCCESS →
      register_notification st ntype params status =
        ({ st with pTimestamp := setKey st.pTimestamp ntype 0 },
          .error .polarH10Error)) := by
  constructor
  · intro hmem
    simp only [register_notification, hcfg, if_pos hmem]
  · intro vp bs hmem hcc hval hkind hser hstat
    have hhr : ¬ ntype = .HEAR_RATE := by
      rcases hkind with h | h <;> subst h <;> decide
    have hv : ¬ (100 ≤ ntype.value) := by
      rcases hkind with h | h <;> subst h <;> decide
    simp only [register_notification, hcfg, if_neg hmem, hval, if_neg hhr, if_neg hv,
      hser, if_neg hstat]
    rw [addElem, if_neg hmem]
    rw [delElem_append_self st.callbacks ntype hmem,
      delKey_setKey st.currentConfig ntype _ hcc]

/-- Witness for C7_register_atomic: a failed ECG start from the empty
registration state rolls back to exactly the p_timestamp reset. -/
theorem C7_register_atomic_witness :
    register_notification
        ⟨[], [], [], 0, [(.ECG, [(.SAMPLE_RATE, .listv [130, 65])])]⟩ .ECG none ⟨1⟩ =
      (⟨[], [], [(.ECG, 0)], 0, [(.ECG, [(.SAMPLE_RATE, .listv [130, 65])])]⟩,
        .error .polarH10Error) :=
  (C7_register_atomic ⟨[], [], [], 0, [(.ECG, [(.SAMPLE_RATE, .listv [130, 65])])]⟩
      .ECG none ⟨1⟩ [(.SAMPLE_RATE, .listv [130, 65])] (by decide)).2
    [(.SAMPLE_RATE, 65)] [0, 1, 65, 0] (by decide) (by decide) (by decide) (Or.inl rfl)
    (by decide) (by decide)


/-- The outstanding control-point transaction: the command and measurement
kind of the request whose response is awaited. -/
structure PendingTx where
  command : PMDCommand
  mkind : PMDMeasurement
deriving DecidableEq, Repr

/-- The effect of one response notification on the pending transaction. -/
inductive TxOutcome where
  | ignored
  | resolved (status : PMDStatus) (params : List ParamEntry)
  | raised (e : PyError)
deriving DecidableEq, Repr

/-- handle_response, the control-point response closure inside
_pmd_control_point_request (polar_h10.py lines 169-177), on one notification.
Faithful points: data[1] is compared with the outstanding command before
data[2] is touched (short-circuit or); a mismatch on either returns without
resolving; on a match the status is taken from data[3] (.raised models the
IndexError of a too-short buffer); when the status is success the remaining
parameters data[5:] are decoded before the event is set, so a parameter
decode failure raises inside the callback and the transaction never
resolves. -/
def handle_response (tx : PendingTx) (data : List Nat) : TxOutcome :=
  match data.get? 1 with
  | none => .raised .indexError
  | some b1 =>
    if b1 ≠ tx.command.value then .ignored
    else
      match data.get? 2 with
      | none => .raised .indexError
      | some b2 =>
        if b2 ≠ tx.mkind.value then .ignored
        else
          match data.get? 3 with
          | none => .raised .indexError
          | some b3 =>
            if (⟨b3⟩ : PMDStatus) = PMDStatus.SUCCESS then
              match deserialize_pmd_parameters (data.drop 5) with
              | .error e => .raised e
              | .ok ps => .resolved ⟨b3⟩ ps
            else .resolved ⟨b3⟩ []

/-- C8 counterexample: a response matching the pending
(GET_MEASUREMENT_SETTINGS, ECG) transaction with success status whose
parameter bytes start with the undefined setting byte 255: the decode raises
inside the handler before the event is set, so the matching response does not
resolve the transaction — contradicting "resolves exactly once" for every
matching response. -/
theorem C8_response_counterexample :
    handle_response ⟨.GET_MEASUREMENT_SETTINGS, .ECG⟩ [240, 1, 0, 0, 0, 255, 0, 0] =
      .raised .valueError := by
  simp [handle_response, PMDCommand.value, PMDMeasurement.value, PMDStatus.SUCCESS,
    deserialize_pmd_parameters, deserialize_go, PMDSetting.ofValue]

/-- C8 (amended): for every response notification carrying at least the four
header bytes while a transaction is pending: a mismatch in the echoed command
byte (byte 1) or measurement-kind byte (byte 2) leaves the transaction
unresolved (ignored, state untouched); a match resolves it with status = byte
3 — with empty parameters when the status is not success, and with the
parameter-codec decode of bytes 5 onward when it is success and that decode
succeeds (a failing decode raises instead and the transaction stays
pending). -/
theorem C8_response_correlation (tx : PendingTx) (data : List Nat) (b1 b2 b3 : Nat)
    (h1 : data.get? 1 = some b1) (h2 : data.get? 2 = some b2)
    (h3 : data.get? 3 = some b3) :
    (b1 ≠ tx.command.value → handle_response tx data = .ignored) ∧
    (b1 = tx.command.value → b2 ≠ tx.mkind.value → handle_response tx data = .ignored) ∧
    (b1 = tx.command.value → b2 = tx.mkind.value → b3 ≠ 0 →
      handle_response tx data = .resolved ⟨b3⟩ []) ∧
    (∀ ps, b1 = tx.command.value → b2 = tx.mkind.value → b3 = 0 →
      deserialize_pmd_parameters (data.drop 5) = .ok ps →
      handle_response tx data = .resolved ⟨0⟩ ps) := by
  refine ⟨?_, ?_, ?_, ?_⟩
  · intro hm
    simp only [handle_response, h1, if_pos hm]
  · intro he hm
    simp only [handle_response, h1, h2]
    rw [if_neg (not_not_intro he), if_pos hm]
  · intro he1 he2 hs
    have hne : ¬ ((⟨b3⟩ : PMDStatus) = PMDStatus.SUCCESS) := by
      intro hc
      exact hs (congrArg PMDStatus.code hc)
    simp only [handle_response, h1, h2, h3]
    rw [if_neg (not_not_intro he1), if_neg (not_not_intro he2), if_neg hne]
  · intro ps he1 he2 hs hdec
    subst hs
    simp only [handle_response, h1, h2, h3]
    rw [if_neg (not_not_intro he1), if_neg (not_not_intro he2),
      if_pos (show (⟨0⟩ : PMDStatus) = PMDStatus.SUCCESS from rfl), hdec]

/-- Witness for C8_response_correlation: a matching success response with the
parameter bytes SAMPLE_RATE :: 1 :: 25 :: 0 resolves with the decoded scalar
25. -/
theorem C8_response_correlation_witness :
    handle_response ⟨.GET_MEASUREMENT_SETTINGS, .ECG⟩ [240, 1, 0, 0, 0, 0, 1, 25, 0] =
      .resolved ⟨0⟩ [(.SAMPLE_RATE, .scalar 25)] :=
  (C8_response_correlation ⟨.GET_MEASUREMENT_SETTINGS, .ECG⟩
      [240, 1, 0, 0, 0, 0, 1, 25, 0] 1 0 0 (by decide) (by decide) (by decide)).2.2.2
    [(.SAMPLE_RATE, .scalar 25)] (by decide) (by decide) (by decide)
    (by simp [deserialize_pmd_parameters, deserialize_go, PMDSetting.ofValue, readValues,
      fromBytesLE, dictInsert, get_setting_size])

end PolarH10
